import Mathlib

/-
Verification development for the player-state and payment-resolution engine
of the stourney tournament library (src/lib/src/player.rs).

The repository source under verification provides `Player`, the recursive
payment search `token_match`, and the affordability query
`payment_options_for`.  The token-vector, color-enumeration and card types
(`Tokens`, `GemType`, `Cost`, `Card`) live in sibling modules that are not
part of the provided sources; they are modelled here from the specification
(spec sections 2, 3 and 6), which describes them as a six-counter integer
vector with elementwise arithmetic, a fixed color enumeration with a
distinguished wildcard ("gold") member, and immutable card reference data.
-/

/-- Modelled from the spec: the fixed enumeration of color categories with a
distinguished wildcard member ("gold"); spec calls for an `all()` iterator
over the categories. -/
inductive GemType : Type
  | ruby
  | emerald
  | sapphire
  | diamond
  | onyx
  | gold
deriving DecidableEq, Repr

/-- Modelled from the spec: the `all()` iterator of the color enumeration. -/
def GemType.all : List GemType :=
  [.ruby, .emerald, .sapphire, .diamond, .onyx, .gold]

/-- Modelled from the spec: the token vector type — six integer counters, one
per standard color plus one wildcard ("gold") counter, supporting elementwise
add/subtract, per-color indexing, a `total()` reduction and a `legal()`
predicate.  Counters are integers: the spec notes intermediate vectors may be
"negative-looking", and the deficit computation in `payment_options_for`
relies on signed subtraction. -/
structure Tokens where
  ruby : Int
  emerald : Int
  sapphire : Int
  diamond : Int
  onyx : Int
  gold : Int
deriving DecidableEq, Repr

/-- Modelled from the spec: the all-zero token vector. -/
def Tokens.empty : Tokens := ⟨0, 0, 0, 0, 0, 0⟩

/-- Modelled from the spec: a unit vector holding one token of one color. -/
def Tokens.one : GemType → Tokens
  | .ruby => ⟨1, 0, 0, 0, 0, 0⟩
  | .emerald => ⟨0, 1, 0, 0, 0, 0⟩
  | .sapphire => ⟨0, 0, 1, 0, 0, 0⟩
  | .diamond => ⟨0, 0, 0, 1, 0, 0⟩
  | .onyx => ⟨0, 0, 0, 0, 1, 0⟩
  | .gold => ⟨0, 0, 0, 0, 0, 1⟩

/-- Modelled from the spec: per-color indexing of a token vector. -/
def Tokens.get (t : Tokens) : GemType → Int
  | .ruby => t.ruby
  | .emerald => t.emerald
  | .sapphire => t.sapphire
  | .diamond => t.diamond
  | .onyx => t.onyx
  | .gold => t.gold

/-- Modelled from the spec: elementwise addition. -/
def Tokens.add (a b : Tokens) : Tokens :=
  ⟨a.ruby + b.ruby, a.emerald + b.emerald, a.sapphire + b.sapphire,
   a.diamond + b.diamond, a.onyx + b.onyx, a.gold + b.gold⟩

/-- Modelled from the spec: elementwise subtraction. -/
def Tokens.sub (a b : Tokens) : Tokens :=
  ⟨a.ruby - b.ruby, a.emerald - b.emerald, a.sapphire - b.sapphire,
   a.diamond - b.diamond, a.onyx - b.onyx, a.gold - b.gold⟩

instance : Add Tokens := ⟨Tokens.add⟩

instance : Sub Tokens := ⟨Tokens.sub⟩

/-- Modelled from the spec: the `total()` reduction, the sum of all six
counters. -/
def Tokens.total (t : Tokens) : Int :=
  t.ruby + t.emerald + t.sapphire + t.diamond + t.onyx + t.gold

/-- Modelled from the spec: the `legal()` predicate — every counter is
non-negative. -/
def Tokens.legal (t : Tokens) : Prop :=
  0 ≤ t.ruby ∧ 0 ≤ t.emerald ∧ 0 ≤ t.sapphire ∧ 0 ≤ t.diamond ∧
  0 ≤ t.onyx ∧ 0 ≤ t.gold

instance (t : Tokens) : Decidable t.legal := by
  unfold Tokens.legal; infer_instance

/-- Auxiliary measure for the recursive payment search: the sum of the
positive parts of the six counters. -/
def Tokens.natTotal (t : Tokens) : Nat :=
  t.ruby.toNat + t.emerald.toNat + t.sapphire.toNat + t.diamond.toNat +
  t.onyx.toNat + t.gold.toNat

@[simp] theorem Tokens.sub_def (a b : Tokens) :
    a - b = ⟨a.ruby - b.ruby, a.emerald - b.emerald, a.sapphire - b.sapphire,
             a.diamond - b.diamond, a.onyx - b.onyx, a.gold - b.gold⟩ := rfl

@[simp] theorem Tokens.add_def (a b : Tokens) :
    a + b = ⟨a.ruby + b.ruby, a.emerald + b.emerald, a.sapphire + b.sapphire,
             a.diamond + b.diamond, a.onyx + b.onyx, a.gold + b.gold⟩ := rfl

@[simp] theorem Tokens.get_empty (c : GemType) : Tokens.empty.get c = 0 := by
  cases c <;> rfl

theorem Tokens.get_one (c x : GemType) :
    (Tokens.one c).get x = if x = c then 1 else 0 := by
  cases c <;> cases x <;> simp [Tokens.one, Tokens.get]

theorem Tokens.get_add (a b : Tokens) (c : GemType) :
    (a + b).get c = a.get c + b.get c := by
  cases c <;> rfl

theorem Tokens.get_sub (a b : Tokens) (c : GemType) :
    (a - b).get c = a.get c - b.get c := by
  cases c <;> rfl

theorem Tokens.total_eq (t : Tokens) :
    t.total = t.get .ruby + t.get .emerald + t.get .sapphire +
      t.get .diamond + t.get .onyx + t.get .gold := rfl

theorem Tokens.natTotal_eq (t : Tokens) :
    t.natTotal = (t.get .ruby).toNat + (t.get .emerald).toNat +
      (t.get .sapphire).toNat + (t.get .diamond).toNat +
      (t.get .onyx).toNat + (t.get .gold).toNat := rfl

theorem Tokens.legal_iff (t : Tokens) : t.legal ↔ ∀ c, 0 ≤ t.get c := by
  constructor
  · rintro ⟨h1, h2, h3, h4, h5, h6⟩ c
    cases c <;> assumption
  · intro h
    exact ⟨h .ruby, h .emerald, h .sapphire, h .diamond, h .onyx, h .gold⟩

/-- Modelled from the spec: a per-color card cost, numerically compatible
with `Tokens` and convertible to a token vector. -/
structure Cost where
  ruby : Int
  emerald : Int
  sapphire : Int
  diamond : Int
  onyx : Int
deriving DecidableEq, Repr

/-- Modelled from the spec (section 4.1): the effective cost after
subtracting development discounts, floored at zero per color. -/
def Cost.discounted_with (c : Cost) (developments : Tokens) : Cost :=
  ⟨max 0 (c.ruby - developments.ruby), max 0 (c.emerald - developments.emerald),
   max 0 (c.sapphire - developments.sapphire),
   max 0 (c.diamond - developments.diamond),
   max 0 (c.onyx - developments.onyx)⟩

/-- Modelled from the spec: conversion of a per-color cost to a token vector
(the wildcard component of a cost is zero). -/
def Cost.to_tokens (c : Cost) : Tokens :=
  ⟨c.ruby, c.emerald, c.sapphire, c.diamond, c.onyx, 0⟩

/-- Modelled from the spec: opaque card identifier. -/
abbrev CardId := Nat

/-- Modelled from the spec: immutable card reference data exposing `cost()`,
`gem()`, `points()` and `id()`; `points` is an 8-bit unsigned value. -/
structure Card where
  id : CardId
  cost : Cost
  gem : GemType
  points : Nat
deriving DecidableEq, Repr

set_option maxHeartbeats 1600000 in
/-- The recursive payment search of src/lib/src/player.rs (`token_match`).
The source iterates `for color in GemType::all()` accumulating, for each
color with outstanding cost, the results of paying one same-color token
and of paying one wildcard token; the loop over the fixed six-element
enumeration is unrolled here, with the per-color contributions joined by
set union exactly as `result.extend` followed by `HashSet::from_iter`
deduplication does.  Memoization (the `#[cached]` attribute) is a pure
caching layer and does not change the returned value. -/
def token_match (cost : Tokens) (gems : Tokens) (running_payment : Tokens) :
    Finset Tokens :=
  if cost.total = 0 then {running_payment}
  else if gems.total = 0 then ∅
  else
    (if _h : 0 < cost.get .ruby then
      (if 0 < gems.get .ruby then
        token_match (cost - Tokens.one .ruby) (gems - Tokens.one .ruby)
          (running_payment + Tokens.one .ruby) else ∅)
      ∪ (if 0 < gems.get .gold then
        token_match (cost - Tokens.one .ruby) (gems - Tokens.one .gold)
          (running_payment + Tokens.one .gold) else ∅)
    else ∅)
    ∪ (if _h : 0 < cost.get .emerald then
      (if 0 < gems.get .emerald then
        token_match (cost - Tokens.one .emerald) (gems - Tokens.one .emerald)
          (running_payment + Tokens.one .emerald) else ∅)
      ∪ (if 0 < gems.get .gold then
        token_match (cost - Tokens.one .emerald) (gems - Tokens.one .gold)
          (running_payment + Tokens.one .gold) else ∅)
    else ∅)
    ∪ (if _h : 0 < cost.get .sapphire then
      (if 0 < gems.get .sapphire then
        token_match (cost - Tokens.one .sapphire) (gems - Tokens.one .sapphire)
          (running_payment + Tokens.one .sapphire) else ∅)
      ∪ (if 0 < gems.get .gold then
        token_match (cost - Tokens.one .sapphire) (gems - Tokens.one .gold)
          (running_payment + Tokens.one .gold) else ∅)
    else ∅)
    ∪ (if _h : 0 < cost.get .diamond then
      (if 0 < gems.get .diamond then
        token_match (cost - Tokens.one .diamond) (gems - Tokens.one .diamond)
          (running_payment + Tokens.one .diamond) else ∅)
      ∪ (if 0 < gems.get .gold then
        token_match (cost - Tokens.one .diamond) (gems - Tokens.one .gold)
          (running_payment + Tokens.one .gold) else ∅)
    else ∅)
    ∪ (if _h : 0 < cost.get .onyx then
      (if 0 < gems.get .onyx then
        token_match (cost - Tokens.one .onyx) (gems - Tokens.one .onyx)
          (running_payment + Tokens.one .onyx) else ∅)
      ∪ (if 0 < gems.get .gold then
        token_match (cost - Tokens.one .onyx) (gems - Tokens.one .gold)
          (running_payment + Tokens.one .gold) else ∅)
    else ∅)
    ∪ (if _h : 0 < cost.get .gold then
      (if 0 < gems.get .gold then
        token_match (cost - Tokens.one .gold) (gems - Tokens.one .gold)
          (running_payment + Tokens.one .gold) else ∅)
      ∪ (if 0 < gems.get .gold then
        token_match (cost - Tokens.one .gold) (gems - Tokens.one .gold)
          (running_payment + Tokens.one .gold) else ∅)
    else ∅)
termination_by cost.natTotal
decreasing_by
  all_goals
    simp_all only [Tokens.natTotal, Tokens.sub_def, Tokens.get, Tokens.one]
  all_goals omega

/-- The player aggregate of src/lib/src/player.rs.  The `points` and
`noble_points` fields are `u8` in the source; they are embedded as naturals
with every addition taken modulo 2^8, the wrapping (release-build)
semantics of `u8` arithmetic. -/
structure Player where
  points : Nat
  noble_points : Nat
  reserved : List CardId
  gems : Tokens
  developments : Tokens
  blind_reserved : List CardId
deriving DecidableEq, Repr

def Player.new : Player :=
  { points := 0
    noble_points := 0
    reserved := []
    gems := Tokens.empty
    developments := Tokens.empty
    blind_reserved := [] }

def Player.add_points (p : Player) (points : Nat) : Player :=
  { p with points := (p.points + points) % 256 }

def Player.add_noble_points (p : Player) : Player :=
  { p with points := (p.points + 3) % 256
           noble_points := (p.noble_points + 3) % 256 }

def Player.num_reserved (p : Player) : Nat := p.reserved.length

def Player.add_development (p : Player) (color : GemType) : Player :=
  { p with developments := p.developments + Tokens.one color }

def Player.remove_gems (p : Player) (gems : Tokens) : Player :=
  { p with gems := p.gems - gems }

def Player.add_gems (p : Player) (gems : Tokens) : Player :=
  { p with gems := p.gems + gems }

def Player.has_reserved_card (p : Player) (card_id : CardId) : Prop :=
  card_id ∈ p.reserved

def Player.purchase_card (p : Player) (card : Card) (payment : Tokens) :
    Player :=
  { p with gems := p.gems - payment
           developments := p.developments + Tokens.one card.gem
           points := (p.points + card.points) % 256
           reserved := p.reserved.filter (fun x => x != card.id)
           blind_reserved := p.blind_reserved.filter (fun x => x != card.id) }

def Player.reserve_card (p : Player) (card_id : CardId) : Player :=
  { p with reserved := p.reserved ++ [card_id] }

def Player.blind_reserve_card (p : Player) (card_id : CardId) : Player :=
  { p with reserved := p.reserved ++ [card_id]
           blind_reserved := p.blind_reserved ++ [card_id] }

/-- The `debug_assert!` precondition of `reserve_card` and
`blind_reserve_card`: fewer than three cards already reserved. -/
def Player.can_reserve (p : Player) : Prop := p.reserved.length < 3

instance (p : Player) : Decidable p.can_reserve := by
  unfold Player.can_reserve; infer_instance

/-- The effective cost computed at the top of `payment_options_for`:
the card cost discounted with the player's developments, floored at zero,
as a token vector. -/
def Player.effective_cost (p : Player) (card : Card) : Tokens :=
  (card.cost.discounted_with p.developments).to_tokens

/-- The fast-reject accumulation of `payment_options_for`: for each color,
the deficit `cost[color] - gems[color]` is added when positive. -/
def totalDeficit (cost gems : Tokens) : Int :=
  GemType.all.foldl (fun acc color =>
    let deficit := cost.get color - gems.get color
    if 0 < deficit then acc + deficit else acc) 0

def Player.payment_options_for (p : Player) (card : Card) :
    Option (Finset Tokens) :=
  let cost := p.effective_cost card
  if p.gems.get .gold < totalDeficit cost p.gems then none
  else
    let payments := token_match cost p.gems Tokens.empty
    if payments.card = 0 then none
    else some payments

theorem mem_dite_finset (P : Prop) [Decidable P] (A : Finset Tokens)
    (x : Tokens) : (x ∈ if _h : P then A else ∅) ↔ P ∧ x ∈ A := by
  split_ifs with h
  · simp [h]
  · simp [h]

theorem mem_ite_finset (P : Prop) [Decidable P] (A : Finset Tokens)
    (x : Tokens) : (x ∈ if P then A else ∅) ↔ P ∧ x ∈ A := by
  split_ifs with h
  · simp [h]
  · simp [h]

/-- One iteration of the color loop of `token_match`: the contribution of a
single color with outstanding cost, paying either a same-color token or a
wildcard token. -/
def tmBlock (cost gems rp : Tokens) (c : GemType) : Finset Tokens :=
  if 0 < cost.get c then
    (if 0 < gems.get c then
      token_match (cost - Tokens.one c) (gems - Tokens.one c)
        (rp + Tokens.one c) else ∅)
    ∪ (if 0 < gems.get .gold then
      token_match (cost - Tokens.one c) (gems - Tokens.one .gold)
        (rp + Tokens.one .gold) else ∅)
  else ∅

theorem token_match_unfold (cost gems rp : Tokens) :
    token_match cost gems rp =
      if cost.total = 0 then {rp}
      else if gems.total = 0 then ∅
      else tmBlock cost gems rp .ruby ∪ tmBlock cost gems rp .emerald ∪
        tmBlock cost gems rp .sapphire ∪ tmBlock cost gems rp .diamond ∪
        tmBlock cost gems rp .onyx ∪ tmBlock cost gems rp .gold := by
  rw [token_match.eq_def]
  simp only [tmBlock, dite_eq_ite]

theorem mem_tmBlock (cost gems rp pay : Tokens) (c : GemType) :
    pay ∈ tmBlock cost gems rp c ↔ 0 < cost.get c ∧
      ((0 < gems.get c ∧
          pay ∈ token_match (cost - Tokens.one c) (gems - Tokens.one c)
            (rp + Tokens.one c)) ∨
       (0 < gems.get .gold ∧
          pay ∈ token_match (cost - Tokens.one c) (gems - Tokens.one .gold)
            (rp + Tokens.one .gold))) := by
  unfold tmBlock
  rw [mem_ite_finset, Finset.mem_union, mem_ite_finset, mem_ite_finset]

theorem mem_token_match (cost gems rp pay : Tokens) :
    pay ∈ token_match cost gems rp ↔
      (cost.total = 0 ∧ pay = rp) ∨
      (cost.total ≠ 0 ∧ gems.total ≠ 0 ∧
        ∃ c : GemType, pay ∈ tmBlock cost gems rp c) := by
  rw [token_match_unfold]
  by_cases h0 : cost.total = 0
  · simp [h0]
  by_cases h1 : gems.total = 0
  · simp [h0, h1]
  rw [if_neg h0, if_neg h1]
  simp only [Finset.mem_union]
  constructor
  · rintro (((((h | h) | h) | h) | h) | h)
    · exact Or.inr ⟨h0, h1, .ruby, h⟩
    · exact Or.inr ⟨h0, h1, .emerald, h⟩
    · exact Or.inr ⟨h0, h1, .sapphire, h⟩
    · exact Or.inr ⟨h0, h1, .diamond, h⟩
    · exact Or.inr ⟨h0, h1, .onyx, h⟩
    · exact Or.inr ⟨h0, h1, .gold, h⟩
  · rintro (⟨h, _⟩ | ⟨_, _, c, hc⟩)
    · exact absurd h h0
    · cases c
      · exact Or.inl (Or.inl (Or.inl (Or.inl (Or.inl hc))))
      · exact Or.inl (Or.inl (Or.inl (Or.inl (Or.inr hc))))
      · exact Or.inl (Or.inl (Or.inl (Or.inr hc)))
      · exact Or.inl (Or.inl (Or.inr hc))
      · exact Or.inl (Or.inr hc)
      · exact Or.inr hc

/-- Sum of an integer quantity over the five non-wildcard colors. -/
def colorSum (f : GemType → Int) : Int :=
  f .ruby + f .emerald + f .sapphire + f .diamond + f .onyx

theorem colorSum_congr (f g : GemType → Int) (h : ∀ c, f c = g c) :
    colorSum f = colorSum g := by
  unfold colorSum
  rw [h .ruby, h .emerald, h .sapphire, h .diamond, h .onyx]

theorem colorSum_congr5 (f g : GemType → Int)
    (h : ∀ c, c ≠ GemType.gold → f c = g c) : colorSum f = colorSum g := by
  unfold colorSum
  rw [h .ruby (by simp), h .emerald (by simp), h .sapphire (by simp),
    h .diamond (by simp), h .onyx (by simp)]

theorem colorSum_sub (f g : GemType → Int) :
    colorSum (fun c => f c - g c) = colorSum f - colorSum g := by
  unfold colorSum
  ring

theorem colorSum_indicator (c : GemType) (hc : c ≠ .gold) :
    colorSum (fun x => if x = c then (1 : Int) else 0) = 1 := by
  cases c <;> simp [colorSum] <;> exact absurd rfl hc

theorem natTotal_sub_one (cost : Tokens) (c : GemType)
    (hc : 0 < cost.get c) :
    (cost - Tokens.one c).natTotal < cost.natTotal := by
  cases c <;>
    (simp only [Tokens.natTotal, Tokens.sub_def, Tokens.one,
      Tokens.get] at hc ⊢) <;>
    omega

theorem cost_sub_nonneg (cost : Tokens) (c : GemType)
    (hnn : ∀ x, 0 ≤ cost.get x) (hc : 0 < cost.get c) :
    ∀ x, 0 ≤ (cost - Tokens.one c).get x := by
  intro x
  rw [Tokens.get_sub, Tokens.get_one]
  by_cases hx : x = c
  · subst hx
    simp only [if_pos rfl]
    omega
  · simp only [if_neg hx]
    have := hnn x
    omega

theorem cost_sub_gold (cost : Tokens) (c : GemType)
    (hg : cost.get .gold = 0) (hc : c ≠ .gold) :
    (cost - Tokens.one c).get .gold = 0 := by
  rw [Tokens.get_sub, Tokens.get_one, if_neg (fun h => hc h.symm)]
  omega

/-- Soundness of the recursive payment search: every emitted payment extends
the running payment by tokens actually drawn from `gems`, covers each color
requirement by at most the required amount, and uses wildcards for exactly
the uncovered remainder. -/
theorem token_match_sound :
    ∀ (n : Nat) (cost gems rp pay : Tokens), cost.natTotal = n →
      (∀ c, 0 ≤ cost.get c) → cost.get .gold = 0 →
      pay ∈ token_match cost gems rp →
      (∀ c, 0 ≤ pay.get c - rp.get c ∧
        pay.get c - rp.get c ≤ max 0 (gems.get c)) ∧
      (∀ c, c ≠ .gold → pay.get c - rp.get c ≤ cost.get c) ∧
      pay.get .gold - rp.get .gold =
        colorSum (fun c => cost.get c - (pay.get c - rp.get c)) := by
  intro n
  induction n using Nat.strong_induction_on with
  | _ n ih =>
    intro cost gems rp pay hn hnn hg0 hmem
    rw [mem_token_match] at hmem
    rcases hmem with ⟨htot, rfl⟩ | ⟨htot, -, c, hblock⟩
    · have hzero : ∀ c, cost.get c = 0 := by
        intro c
        have h1 := hnn .ruby
        have h2 := hnn .emerald
        have h3 := hnn .sapphire
        have h4 := hnn .diamond
        have h5 := hnn .onyx
        rw [Tokens.total_eq] at htot
        cases c <;> omega
      refine ⟨fun c => by constructor <;> omega, fun c _ => by
        rw [hzero c]; omega, ?_⟩
      rw [colorSum_congr _ (fun _ => (0 : Int)) (fun c => by simp [hzero c])]
      simp [colorSum]
    · rw [mem_tmBlock] at hblock
      obtain ⟨hc, hbr⟩ := hblock
      have hcgold : c ≠ .gold := fun h => by rw [h, hg0] at hc; omega
      have hn' : (cost - Tokens.one c).natTotal < n :=
        hn ▸ natTotal_sub_one cost c hc
      have hnn' := cost_sub_nonneg cost c hnn hc
      have hg0' := cost_sub_gold cost c hg0 hcgold
      rcases hbr with ⟨hg, hm⟩ | ⟨hg, hm⟩
      · obtain ⟨ka, kb, kc⟩ := ih _ hn' _ _ _ _ rfl hnn' hg0' hm
        refine ⟨fun x => ?_, fun x hx => ?_, ?_⟩
        · obtain ⟨k1, k2⟩ := ka x
          rw [Tokens.get_add, Tokens.get_one] at k1 k2
          rw [Tokens.get_sub, Tokens.get_one] at k2
          by_cases hxc : x = c
          · subst hxc
            simp only [if_pos rfl] at k1 k2
            constructor <;> omega
          · simp only [if_neg hxc] at k1 k2
            constructor <;> omega
        · have k := kb x hx
          rw [Tokens.get_add, Tokens.get_one, Tokens.get_sub,
            Tokens.get_one] at k
          by_cases hxc : x = c
          · subst hxc
            simp only [if_pos rfl] at k
            omega
          · simp only [if_neg hxc] at k
            omega
        · rw [Tokens.get_add, Tokens.get_one,
            if_neg (fun h => hcgold h.symm)] at kc
          rw [colorSum_congr _
            (fun x => cost.get x - (pay.get x - rp.get x)) (fun x => by
              rw [Tokens.get_sub, Tokens.get_one, Tokens.get_add,
                Tokens.get_one]
              by_cases hxc : x = c
              · subst hxc; simp only [if_pos rfl]; ring
              · simp only [if_neg hxc]; ring)] at kc
          omega
      · obtain ⟨ka, kb, kc⟩ := ih _ hn' _ _ _ _ rfl hnn' hg0' hm
        refine ⟨fun x => ?_, fun x hx => ?_, ?_⟩
        · obtain ⟨k1, k2⟩ := ka x
          rw [Tokens.get_add, Tokens.get_one] at k1 k2
          rw [Tokens.get_sub, Tokens.get_one] at k2
          by_cases hxg : x = .gold
          · subst hxg
            simp only [if_pos rfl] at k1 k2
            constructor <;> omega
          · simp only [if_neg hxg] at k1 k2
            constructor <;> omega
        · have k := kb x hx
          rw [Tokens.get_add, Tokens.get_one, if_neg hx,
            Tokens.get_sub, Tokens.get_one] at k
          by_cases hxc : x = c
          · subst hxc
            simp only [if_pos rfl] at k
            omega
          · simp only [if_neg hxc] at k
            omega
        · rw [Tokens.get_add, Tokens.get_one, if_pos rfl] at kc
          have hrw : colorSum (fun x =>
              (cost - Tokens.one c).get x -
                (pay.get x - (rp + Tokens.one .gold).get x)) =
              colorSum (fun x => cost.get x - (pay.get x - rp.get x)) -
              colorSum (fun x => if x = c then (1 : Int) else 0) := by
            rw [← colorSum_sub]
            refine colorSum_congr5 _ _ (fun x hx => ?_)
            rw [Tokens.get_sub, Tokens.get_one, Tokens.get_add,
              Tokens.get_one, if_neg hx]
            ring
          rw [hrw, colorSum_indicator c hcgold] at kc
          omega

theorem deficit_step (acc d : Int) :
    (if 0 < d then acc + d else acc) = acc + max 0 d := by
  split_ifs <;> omega

theorem totalDeficit_eq (cost gems : Tokens) :
    totalDeficit cost gems =
      max 0 (cost.get .ruby - gems.get .ruby) +
      max 0 (cost.get .emerald - gems.get .emerald) +
      max 0 (cost.get .sapphire - gems.get .sapphire) +
      max 0 (cost.get .diamond - gems.get .diamond) +
      max 0 (cost.get .onyx - gems.get .onyx) +
      max 0 (cost.get .gold - gems.get .gold) := by
  simp only [totalDeficit, GemType.all, List.foldl_cons, List.foldl_nil]
  rw [deficit_step, deficit_step, deficit_step, deficit_step, deficit_step,
    deficit_step]
  omega

theorem exists_pos_color (cost : Tokens) (hnn : ∀ c, 0 ≤ cost.get c)
    (hg : cost.get .gold = 0) (h0 : cost.total ≠ 0) :
    ∃ c, c ≠ GemType.gold ∧ 0 < cost.get c := by
  by_contra h
  push_neg at h
  have h1 := hnn .ruby
  have h2 := hnn .emerald
  have h3 := hnn .sapphire
  have h4 := hnn .diamond
  have h5 := hnn .onyx
  have k1 := h .ruby (by simp)
  have k2 := h .emerald (by simp)
  have k3 := h .sapphire (by simp)
  have k4 := h .diamond (by simp)
  have k5 := h .onyx (by simp)
  rw [Tokens.total_eq] at h0
  omega

theorem gems_total_pos (cost gems : Tokens) (hnn : ∀ c, 0 ≤ cost.get c)
    (hg : cost.get .gold = 0) (h0 : cost.total ≠ 0)
    (hd : totalDeficit cost gems ≤ gems.get .gold) : gems.total ≠ 0 := by
  rw [totalDeficit_eq] at hd
  have h1 := hnn .ruby
  have h2 := hnn .emerald
  have h3 := hnn .sapphire
  have h4 := hnn .diamond
  have h5 := hnn .onyx
  rw [Tokens.total_eq] at h0
  rw [Tokens.total_eq]
  omega

set_option maxHeartbeats 1000000 in
theorem totalDeficit_same (cost gems : Tokens) (c : GemType)
    (hc : c ≠ .gold) :
    totalDeficit (cost - Tokens.one c) (gems - Tokens.one c) =
      totalDeficit cost gems := by
  rw [totalDeficit_eq, totalDeficit_eq]
  simp only [Tokens.get_sub, Tokens.get_one]
  cases c <;>
    first
      | (exact absurd rfl hc)
      | (simp only [reduceIte, reduceCtorEq, if_false]; omega)

theorem gems_sub_gold_get (gems : Tokens) (c : GemType) (hc : c ≠ .gold) :
    (gems - Tokens.one c).get .gold = gems.get .gold := by
  rw [Tokens.get_sub, Tokens.get_one, if_neg (fun h => hc h.symm)]
  omega

theorem gold_pos_of_deficit (cost gems : Tokens) (c : GemType)
    (hcg : c ≠ .gold) (hc : 0 < cost.get c) (hgc : gems.get c ≤ 0)
    (hd : totalDeficit cost gems ≤ gems.get .gold) : 0 < gems.get .gold := by
  rw [totalDeficit_eq] at hd
  cases c <;> simp only [Tokens.get] at hc hgc hd ⊢ <;>
    first
      | (exact absurd rfl hcg)
      | omega

set_option maxHeartbeats 1000000 in
theorem totalDeficit_gold (cost gems : Tokens) (c : GemType)
    (hcg : c ≠ .gold) (hg0 : cost.get .gold = 0) (hc : 0 < cost.get c)
    (hgc : gems.get c ≤ 0)
    (hd : totalDeficit cost gems ≤ gems.get .gold) :
    totalDeficit (cost - Tokens.one c) (gems - Tokens.one .gold) ≤
      (gems - Tokens.one .gold).get .gold := by
  rw [totalDeficit_eq] at hd ⊢
  simp only [Tokens.get_sub, Tokens.get_one]
  cases c <;>
    first
      | (exact absurd rfl hcg)
      | (simp only [reduceIte, reduceCtorEq, if_false]; omega)

/-- Completeness of the fast-reject bound: whenever the accumulated
per-color deficit does not exceed the wildcard gem count, the recursive
payment search finds at least one payment. -/
theorem token_match_nonempty :
    ∀ (n : Nat) (cost gems rp : Tokens), cost.natTotal = n →
      (∀ c, 0 ≤ cost.get c) → cost.get .gold = 0 →
      totalDeficit cost gems ≤ gems.get .gold →
      (token_match cost gems rp).Nonempty := by
  intro n
  induction n using Nat.strong_induction_on with
  | _ n ih =>
    intro cost gems rp hn hnn hg0 hd
    by_cases h0 : cost.total = 0
    · rw [token_match_unfold, if_pos h0]
      exact ⟨rp, Finset.mem_singleton_self rp⟩
    have h1 : gems.total ≠ 0 := gems_total_pos cost gems hnn hg0 h0 hd
    obtain ⟨c, hcg, hc⟩ := exists_pos_color cost hnn hg0 h0
    have hn' : (cost - Tokens.one c).natTotal < n :=
      hn ▸ natTotal_sub_one cost c hc
    have hnn' := cost_sub_nonneg cost c hnn hc
    have hg0' := cost_sub_gold cost c hg0 hcg
    by_cases hgc : 0 < gems.get c
    · have hd' : totalDeficit (cost - Tokens.one c) (gems - Tokens.one c) ≤
          (gems - Tokens.one c).get .gold := by
        rw [totalDeficit_same cost gems c hcg, gems_sub_gold_get gems c hcg]
        exact hd
      obtain ⟨pay, hpay⟩ := ih _ hn' _ _ (rp + Tokens.one c) rfl hnn' hg0' hd'
      refine ⟨pay, ?_⟩
      rw [mem_token_match]
      exact Or.inr ⟨h0, h1, c, (mem_tmBlock _ _ _ _ _).mpr
        ⟨hc, Or.inl ⟨hgc, hpay⟩⟩⟩
    · push_neg at hgc
      have hgold := gold_pos_of_deficit cost gems c hcg hc hgc hd
      have hd' := totalDeficit_gold cost gems c hcg hg0 hc hgc hd
      obtain ⟨pay, hpay⟩ :=
        ih _ hn' _ _ (rp + Tokens.one .gold) rfl hnn' hg0' hd'
      refine ⟨pay, ?_⟩
      rw [mem_token_match]
      exact Or.inr ⟨h0, h1, c, (mem_tmBlock _ _ _ _ _).mpr
        ⟨hc, Or.inr ⟨hgold, hpay⟩⟩⟩

theorem effective_cost_nonneg (p : Player) (card : Card) :
    ∀ c, 0 ≤ (p.effective_cost card).get c := by
  intro c
  cases c <;>
    simp [Player.effective_cost, Cost.discounted_with, Cost.to_tokens,
      Tokens.get] <;>
    omega

theorem effective_cost_gold (p : Player) (card : Card) :
    (p.effective_cost card).get .gold = 0 := rfl

/-- Characterization of a successful affordability query: the fast-reject
bound held and the returned set is exactly the search result. -/
theorem payment_options_some (p : Player) (card : Card) (S : Finset Tokens)
    (h : p.payment_options_for card = some S) :
    totalDeficit (p.effective_cost card) p.gems ≤ p.gems.get .gold ∧
      S = token_match (p.effective_cost card) p.gems Tokens.empty := by
  simp only [Player.payment_options_for] at h
  split_ifs at h with h1 h2
  refine ⟨by omega, ?_⟩
  injection h with h
  exact h.symm

/-- A zero-cost sample card used in concrete instantiations. -/
def cardZero : Card := ⟨0, ⟨0, 0, 0, 0, 0⟩, .ruby, 1⟩

/-- A sample card costing one ruby, used in concrete instantiations. -/
def cardRuby : Card := ⟨5, ⟨1, 0, 0, 0, 0⟩, .emerald, 2⟩

/-- The subset relation between the blind reservations and all
reservations of a player. -/
def Player.blind_subset (p : Player) : Prop :=
  ∀ id ∈ p.blind_reserved, id ∈ p.reserved

/-- Claim C1: every payment returned by `payment_options_for` is elementwise
bounded by the player's gems (so subtracting it leaves a legal vector),
pays at most the effective cost in each non-wildcard color, spends exactly
enough wildcards to cover every per-color remainder, and has the same total
as the effective cost. -/
theorem claim_C1_payment_exact (p : Player) (card : Card) (S : Finset Tokens)
    (pay : Tokens) (hleg : p.gems.legal)
    (hS : p.payment_options_for card = some S) (hpay : pay ∈ S) :
    (∀ c, pay.get c ≤ p.gems.get c) ∧ (p.gems - pay).legal ∧
    (∀ c, c ≠ GemType.gold → pay.get c ≤ (p.effective_cost card).get c) ∧
    pay.get .gold =
      colorSum (fun c => (p.effective_cost card).get c - pay.get c) ∧
    pay.total = (p.effective_cost card).total := by
  obtain ⟨-, hSeq⟩ := payment_options_some p card S hS
  subst hSeq
  obtain ⟨ka, kb, kc⟩ := token_match_sound
    (p.effective_cost card).natTotal (p.effective_cost card) p.gems
    Tokens.empty pay rfl (effective_cost_nonneg p card)
    (effective_cost_gold p card) hpay
  rw [Tokens.legal_iff] at hleg
  have ha : ∀ c, pay.get c ≤ p.gems.get c := by
    intro c
    obtain ⟨k1, k2⟩ := ka c
    rw [Tokens.get_empty] at k2
    have := hleg c
    omega
  have hgolde : pay.get .gold =
      colorSum (fun c => (p.effective_cost card).get c - pay.get c) := by
    rw [Tokens.get_empty, sub_zero] at kc
    rw [kc]
    exact colorSum_congr _ _ (fun c => by rw [Tokens.get_empty, sub_zero])
  refine ⟨ha, ?_, ?_, hgolde, ?_⟩
  · rw [Tokens.legal_iff]
    intro c
    rw [Tokens.get_sub]
    have := ha c
    omega
  · intro c hcg
    have k := kb c hcg
    rw [Tokens.get_empty, sub_zero] at k
    exact k
  · rw [Tokens.total_eq, Tokens.total_eq, effective_cost_gold, hgolde]
    unfold colorSum
    ring

/-- Claim C1 witness: a concrete successful query on a zero-cost card. -/
theorem claim_C1_payment_exact_witness :
    Player.new.gems.legal ∧
    Player.new.payment_options_for cardZero = some {Tokens.empty} ∧
    Tokens.empty ∈ ({Tokens.empty} : Finset Tokens) ∧
    ((∀ c, Tokens.empty.get c ≤ Player.new.gems.get c) ∧
     (Player.new.gems - Tokens.empty).legal ∧
     (∀ c, c ≠ GemType.gold →
        Tokens.empty.get c ≤ (Player.new.effective_cost cardZero).get c) ∧
     Tokens.empty.get .gold = colorSum (fun c =>
        (Player.new.effective_cost cardZero).get c - Tokens.empty.get c) ∧
     Tokens.empty.total = (Player.new.effective_cost cardZero).total) := by
  have htm : token_match (Player.new.effective_cost cardZero)
      Player.new.gems Tokens.empty = {Tokens.empty} := by
    rw [token_match_unfold, if_pos (by decide)]
  have hS : Player.new.payment_options_for cardZero =
      some {Tokens.empty} := by
    simp only [Player.payment_options_for]
    rw [if_neg (by decide), htm, if_neg (by decide)]
  exact ⟨by decide, hS, by decide,
    claim_C1_payment_exact Player.new cardZero {Tokens.empty} Tokens.empty
      (by decide) hS (by decide)⟩

/-- Claim C2: when the summed per-color shortfall strictly exceeds the
wildcard gem count, `payment_options_for` returns `none` via the
fast-reject branch. -/
theorem claim_C2_fast_reject (p : Player) (card : Card)
    (h : p.gems.get .gold < colorSum (fun c =>
      max 0 ((p.effective_cost card).get c - p.gems.get c))) :
    p.payment_options_for card = none := by
  have hcode : p.gems.get .gold <
      totalDeficit (p.effective_cost card) p.gems := by
    rw [totalDeficit_eq]
    simp only [colorSum] at h
    omega
  simp only [Player.payment_options_for]
  rw [if_pos hcode]

/-- Claim C2 witness: a freshly created player cannot afford a card costing
one ruby. -/
theorem claim_C2_fast_reject_witness :
    Player.new.gems.get .gold < colorSum (fun c =>
      max 0 ((Player.new.effective_cost cardRuby).get c -
        Player.new.gems.get c)) ∧
    Player.new.payment_options_for cardRuby = none :=
  ⟨by decide, claim_C2_fast_reject Player.new cardRuby (by decide)⟩

/-- Claim C3 counterexample: the claimed situation — fast-reject passes yet
the search comes back empty — can never arise: whenever the deficit bound
holds, the search finds a payment, so the conjunction is unsatisfiable. -/
theorem claim_C3_counterexample :
    ¬ ∃ (p : Player) (card : Card),
      totalDeficit (p.effective_cost card) p.gems ≤ p.gems.get .gold ∧
      token_match (p.effective_cost card) p.gems Tokens.empty = ∅ := by
  rintro ⟨p, card, hd, he⟩
  obtain ⟨pay, hpay⟩ := token_match_nonempty
    (p.effective_cost card).natTotal (p.effective_cost card) p.gems
    Tokens.empty rfl (effective_cost_nonneg p card)
    (effective_cost_gold p card) hd
  rw [he] at hpay
  exact absurd hpay (Finset.not_mem_empty pay)

/-- Claim C3 amended: whenever the fast-reject pre-check passes, the
recursive search necessarily returns a nonempty set of payments, and
`payment_options_for` returns `some` of that set; the empty-search branch
returning `none` is unreachable from `payment_options_for`. -/
theorem claim_C3_amended (p : Player) (card : Card)
    (hd : totalDeficit (p.effective_cost card) p.gems ≤ p.gems.get .gold) :
    (token_match (p.effective_cost card) p.gems Tokens.empty).Nonempty ∧
    p.payment_options_for card =
      some (token_match (p.effective_cost card) p.gems Tokens.empty) := by
  have hne := token_match_nonempty (p.effective_cost card).natTotal
    (p.effective_cost card) p.gems Tokens.empty rfl
    (effective_cost_nonneg p card) (effective_cost_gold p card) hd
  refine ⟨hne, ?_⟩
  simp only [Player.payment_options_for]
  rw [if_neg (by omega),
    if_neg (Nat.pos_iff_ne_zero.mp (Finset.card_pos.mpr hne))]

/-- Claim C3 amended witness: a concrete pre-check-passing query. -/
theorem claim_C3_amended_witness :
    totalDeficit (Player.new.effective_cost cardZero) Player.new.gems ≤
      Player.new.gems.get .gold ∧
    ((token_match (Player.new.effective_cost cardZero) Player.new.gems
        Tokens.empty).Nonempty ∧
     Player.new.payment_options_for cardZero =
       some (token_match (Player.new.effective_cost cardZero)
         Player.new.gems Tokens.empty)) :=
  ⟨by decide, claim_C3_amended Player.new cardZero (by decide)⟩

/-- Claim C4: `purchase_card` subtracts the payment from gems, adds one
development of the card's color, adds the card's points (as 8-bit
arithmetic), removes the card id from both reservation lists, leaves
noble points unchanged, and is a no-op on either list when the id is
absent. -/
theorem claim_C4_purchase (p : Player) (card : Card) (payment : Tokens)
    (hleg : payment.legal) :
    (p.purchase_card card payment).gems = p.gems - payment ∧
    (p.purchase_card card payment).developments =
      p.developments + Tokens.one card.gem ∧
    (p.purchase_card card payment).points = (p.points + card.points) % 256 ∧
    (p.purchase_card card payment).noble_points = p.noble_points ∧
    (p.purchase_card card payment).reserved =
      p.reserved.filter (fun x => x != card.id) ∧
    (p.purchase_card card payment).blind_reserved =
      p.blind_reserved.filter (fun x => x != card.id) ∧
    (card.id ∉ p.reserved →
      (p.purchase_card card payment).reserved = p.reserved) ∧
    (card.id ∉ p.blind_reserved →
      (p.purchase_card card payment).blind_reserved = p.blind_reserved) := by
  refine ⟨rfl, rfl, rfl, rfl, rfl, rfl, fun hmem => ?_, fun hmem => ?_⟩
  · simp only [Player.purchase_card]
    rw [List.filter_eq_self]
    intro x hx
    simp only [bne_iff_ne, ne_eq]
    rintro rfl
    exact hmem hx
  · simp only [Player.purchase_card]
    rw [List.filter_eq_self]
    intro x hx
    simp only [bne_iff_ne, ne_eq]
    rintro rfl
    exact hmem hx

/-- Claim C4 witness: a concrete purchase by a fresh player. -/
theorem claim_C4_purchase_witness :
    Tokens.empty.legal ∧
    ((Player.new.purchase_card cardZero Tokens.empty).gems =
        Player.new.gems - Tokens.empty ∧
     (Player.new.purchase_card cardZero Tokens.empty).developments =
        Player.new.developments + Tokens.one cardZero.gem ∧
     (Player.new.purchase_card cardZero Tokens.empty).points =
        (Player.new.points + cardZero.points) % 256 ∧
     (Player.new.purchase_card cardZero Tokens.empty).noble_points =
        Player.new.noble_points ∧
     (Player.new.purchase_card cardZero Tokens.empty).reserved =
        Player.new.reserved.filter (fun x => x != cardZero.id) ∧
     (Player.new.purchase_card cardZero Tokens.empty).blind_reserved =
        Player.new.blind_reserved.filter (fun x => x != cardZero.id) ∧
     (cardZero.id ∉ Player.new.reserved →
       (Player.new.purchase_card cardZero Tokens.empty).reserved =
         Player.new.reserved) ∧
     (cardZero.id ∉ Player.new.blind_reserved →
       (Player.new.purchase_card cardZero Tokens.empty).blind_reserved =
         Player.new.blind_reserved)) :=
  ⟨by decide, claim_C4_purchase Player.new cardZero Tokens.empty (by decide)⟩

/-- Claim C5: when the effective cost is zero in total, the query returns
exactly one payment, the empty vector, for any legal gem holding. -/
theorem claim_C5_zero_cost (p : Player) (card : Card) (hleg : p.gems.legal)
    (h0 : (p.effective_cost card).total = 0) :
    p.payment_options_for card = some {Tokens.empty} := by
  rw [Tokens.legal_iff] at hleg
  have hnn := effective_cost_nonneg p card
  have hlt : ¬ (p.gems.get .gold <
      totalDeficit (p.effective_cost card) p.gems) := by
    rw [totalDeficit_eq]
    rw [Tokens.total_eq] at h0
    have g1 := hleg .ruby
    have g2 := hleg .emerald
    have g3 := hleg .sapphire
    have g4 := hleg .diamond
    have g5 := hleg .onyx
    have g6 := hleg .gold
    have c1 := hnn .ruby
    have c2 := hnn .emerald
    have c3 := hnn .sapphire
    have c4 := hnn .diamond
    have c5 := hnn .onyx
    have c6 := hnn .gold
    omega
  have htm : token_match (p.effective_cost card) p.gems Tokens.empty =
      {Tokens.empty} := by
    rw [token_match_unfold, if_pos h0]
  simp only [Player.payment_options_for]
  rw [if_neg hlt, htm, if_neg (by simp)]

/-- Claim C5 witness: a fresh player and a zero-cost card. -/
theorem claim_C5_zero_cost_witness :
    Player.new.gems.legal ∧
    (Player.new.effective_cost cardZero).total = 0 ∧
    Player.new.payment_options_for cardZero = some {Tokens.empty} :=
  ⟨by decide, by decide,
    claim_C5_zero_cost Player.new cardZero (by decide) (by decide)⟩

/-- Claim C6: a player holding no tokens cannot pay a positive effective
cost: the search yields the empty set and the query answers `none`. -/
theorem claim_C6_no_gems (p : Player) (card : Card) (hleg : p.gems.legal)
    (hg : p.gems.total = 0) (hc : 0 < (p.effective_cost card).total) :
    token_match (p.effective_cost card) p.gems Tokens.empty = ∅ ∧
    p.payment_options_for card = none := by
  rw [Tokens.legal_iff] at hleg
  have hnn := effective_cost_nonneg p card
  have g1 := hleg .ruby
  have g2 := hleg .emerald
  have g3 := hleg .sapphire
  have g4 := hleg .diamond
  have g5 := hleg .onyx
  have g6 := hleg .gold
  have c1 := hnn .ruby
  have c2 := hnn .emerald
  have c3 := hnn .sapphire
  have c4 := hnn .diamond
  have c5 := hnn .onyx
  have c6 := hnn .gold
  have htm : token_match (p.effective_cost card) p.gems Tokens.empty = ∅ := by
    rw [token_match_unfold, if_neg (by omega), if_pos hg]
  refine ⟨htm, ?_⟩
  have hdef : p.gems.get .gold < totalDeficit (p.effective_cost card)
      p.gems := by
    rw [totalDeficit_eq]
    rw [Tokens.total_eq] at hg hc
    omega
  simp only [Player.payment_options_for]
  rw [if_pos hdef]

/-- Claim C6 witness: a fresh player and a one-ruby card. -/
theorem claim_C6_no_gems_witness :
    Player.new.gems.legal ∧ Player.new.gems.total = 0 ∧
    0 < (Player.new.effective_cost cardRuby).total ∧
    (token_match (Player.new.effective_cost cardRuby) Player.new.gems
      Tokens.empty = ∅ ∧
     Player.new.payment_options_for cardRuby = none) :=
  ⟨by decide, by decide, by decide,
    claim_C6_no_gems Player.new cardRuby (by decide) (by decide) (by decide)⟩

/-- Claim C7: under the reservation precondition, `reserve_card` appends to
`reserved` only and bumps `num_reserved` by one, `blind_reserve_card`
appends to both lists, and a player already holding three reservations
violates the precondition of a further reservation. -/
theorem claim_C7_reserve (p : Player) (cid : CardId) (h : p.can_reserve) :
    (p.reserve_card cid).reserved = p.reserved ++ [cid] ∧
    (p.reserve_card cid).num_reserved = p.num_reserved + 1 ∧
    (p.reserve_card cid).blind_reserved = p.blind_reserved ∧
    (p.blind_reserve_card cid).reserved = p.reserved ++ [cid] ∧
    (p.blind_reserve_card cid).blind_reserved =
      p.blind_reserved ++ [cid] ∧
    (∀ q : Player, q.num_reserved = 3 → ¬ q.can_reserve) := by
  refine ⟨rfl, ?_, rfl, rfl, rfl, ?_⟩
  · simp [Player.num_reserved, Player.reserve_card]
  · intro q hq
    simp only [Player.can_reserve, Player.num_reserved] at hq ⊢
    omega

/-- Claim C7 witness: a fresh player reserving a card. -/
theorem claim_C7_reserve_witness :
    Player.new.can_reserve ∧
    ((Player.new.reserve_card 7).reserved = Player.new.reserved ++ [7] ∧
     (Player.new.reserve_card 7).num_reserved =
        Player.new.num_reserved + 1 ∧
     (Player.new.reserve_card 7).blind_reserved =
        Player.new.blind_reserved ∧
     (Player.new.blind_reserve_card 7).reserved =
        Player.new.reserved ++ [7] ∧
     (Player.new.blind_reserve_card 7).blind_reserved =
        Player.new.blind_reserved ++ [7] ∧
     (∀ q : Player, q.num_reserved = 3 → ¬ q.can_reserve)) :=
  ⟨by decide, claim_C7_reserve Player.new 7 (by decide)⟩

/-- Claim C8: the subset invariant between blind and public reservations
holds for a fresh player and is preserved by every mutation. -/
theorem claim_C8_blind_subset :
    Player.new.blind_subset ∧
    ∀ (p : Player) (t : Tokens) (n : Nat) (card : Card) (pay : Tokens)
      (cid : CardId), p.blind_subset →
      ((p.add_gems t).blind_subset ∧ (p.remove_gems t).blind_subset ∧
       (p.add_points n).blind_subset ∧ p.add_noble_points.blind_subset ∧
       (p.reserve_card cid).blind_subset ∧
       (p.blind_reserve_card cid).blind_subset ∧
       (p.purchase_card card pay).blind_subset) := by
  constructor
  · intro x hx
    exact absurd hx (List.not_mem_nil x)
  intro p t n card pay cid hinv
  refine ⟨hinv, hinv, hinv, hinv, ?_, ?_, ?_⟩
  · intro x hx
    exact List.mem_append_left _ (hinv x hx)
  · intro x hx
    rcases List.mem_append.mp hx with h | h
    · exact List.mem_append_left _ (hinv x h)
    · exact List.mem_append_right _ h
  · intro x hx
    have hx' : x ∈ p.blind_reserved.filter (fun y => y != card.id) := hx
    have hgoal : x ∈ p.reserved.filter (fun y => y != card.id) := by
      rw [List.mem_filter] at hx' ⊢
      exact ⟨hinv x hx'.1, hx'.2⟩
    exact hgoal

/-- Claim C8 witness: concrete invariant preservation for a fresh player. -/
theorem claim_C8_blind_subset_witness :
    Player.new.blind_subset ∧
    ((Player.new.add_gems Tokens.empty).blind_subset ∧
     (Player.new.remove_gems Tokens.empty).blind_subset ∧
     (Player.new.add_points 1).blind_subset ∧
     Player.new.add_noble_points.blind_subset ∧
     (Player.new.reserve_card 2).blind_subset ∧
     (Player.new.blind_reserve_card 2).blind_subset ∧
     (Player.new.purchase_card cardZero Tokens.empty).blind_subset) := by
  have hinv : Player.new.blind_subset := fun x hx =>
    absurd hx (List.not_mem_nil x)
  exact ⟨hinv, claim_C8_blind_subset.2 Player.new Tokens.empty 1 cardZero
    Tokens.empty 2 hinv⟩

/-- Claim C9 counterexample: `remove_gems` on a fresh player with a
one-ruby vector silently applies the subtraction — the mutated state with
a negative (illegal) ruby counter is returned and no fault of any kind is
raised, in any build. -/
theorem claim_C9_counterexample :
    (Player.new.remove_gems (Tokens.one .ruby)).gems =
      ⟨-1, 0, 0, 0, 0, 0⟩ ∧
    ¬ (Player.new.remove_gems (Tokens.one .ruby)).gems.legal := by
  constructor
  · rfl
  · decide

/-- Claim C9 amended: the mutations apply their changes unconditionally —
`remove_gems` performs the raw subtraction with no check in any build (an
illegal-result call silently yields the illegal state), `purchase_card`
applies the same subtraction for an invariant-violating payment and
silently leaves the player in an illegal state (its payment-legality
guard is a debug-only assertion, absent in production builds), and the
reservation operations append with no enforced bound (their `reserved.len
< 3` guard is likewise debug-only). -/
theorem claim_C9_amended (p : Player) (g : Tokens) (cid : CardId)
    (card : Card) (hbad : ¬ (p.gems - g).legal) :
    (p.remove_gems g).gems = p.gems - g ∧
    ¬ (p.remove_gems g).gems.legal ∧
    (p.purchase_card card g).gems = p.gems - g ∧
    ¬ (p.purchase_card card g).gems.legal ∧
    (p.reserve_card cid).reserved = p.reserved ++ [cid] ∧
    (p.blind_reserve_card cid).reserved = p.reserved ++ [cid] :=
  ⟨rfl, hbad, rfl, hbad, rfl, rfl⟩

/-- Claim C9 amended witness: a concrete illegal removal. -/
theorem claim_C9_amended_witness :
    ¬ (Player.new.gems - Tokens.one .ruby).legal ∧
    ((Player.new.remove_gems (Tokens.one .ruby)).gems =
        Player.new.gems - Tokens.one .ruby ∧
     ¬ (Player.new.remove_gems (Tokens.one .ruby)).gems.legal ∧
     (Player.new.purchase_card cardRuby (Tokens.one .ruby)).gems =
        Player.new.gems - Tokens.one .ruby ∧
     ¬ (Player.new.purchase_card cardRuby (Tokens.one .ruby)).gems.legal ∧
     (Player.new.reserve_card 0).reserved = Player.new.reserved ++ [0] ∧
     (Player.new.blind_reserve_card 0).reserved =
       Player.new.reserved ++ [0]) :=
  ⟨by decide,
    claim_C9_amended Player.new (Tokens.one .ruby) 0 cardRuby (by decide)⟩

/-- Claim C10: the point counters are 8-bit: every addition is performed
modulo 2^8, agreeing with plain addition only while the sum stays at or
below 255, and wrapping beyond it (200 + 100 wraps to 44). -/
theorem claim_C10_u8_points (p : Player) (n : Nat) (card : Card)
    (pay : Tokens) :
    (p.add_points n).points = (p.points + n) % 256 ∧
    p.add_noble_points.points = (p.points + 3) % 256 ∧
    p.add_noble_points.noble_points = (p.noble_points + 3) % 256 ∧
    (p.purchase_card card pay).points = (p.points + card.points) % 256 ∧
    (p.points + n ≤ 255 → (p.add_points n).points = p.points + n) ∧
    ((Player.new.add_points 200).add_points 100).points = 44 :=
  ⟨rfl, rfl, rfl, rfl, fun h => by
    simp only [Player.add_points]
    omega, by decide⟩

/-- Claim C10 witness: a below-limit addition is plain addition. -/
theorem claim_C10_u8_points_witness :
    Player.new.points + 100 ≤ 255 ∧
    (Player.new.add_points 100).points = Player.new.points + 100 :=
  ⟨by decide,
    (claim_C10_u8_points Player.new 100 cardZero Tokens.empty).2.2.2.2.1
      (by decide)⟩
